import Mathlib

/-!
Shallow embedding of the LinearCPP matrix library
(`src/MatrixLibrary/include/{Matrix,Product,Helper,LinearSolver}.hpp`).

Matrices are modelled as a dimension pair together with a total entry
function; the element type `double`/generic `T` is modelled by `ℚ`, so the
"within floating tolerance" statements of the specification become exact
equalities.  Loops writing each cell at most once are translated to the
corresponding functional updates; the pivot-search loop and the main
elimination loop are translated to structural recursions over an explicit
iteration count, exactly mirroring the source's `for` loops.  Functions
that throw (`operator*`, `decomposeLU`) return `Except`.
-/

namespace LinearCPP

/-- Dense rows×cols matrix of `Matrix.hpp`.  Entries outside the stored
`rows`×`cols` grid do not exist in the C++ object; the model returns the
entry function's value there, and every constructor below yields `0`
outside the grid (the C++ constructor zero-fills the storage). -/
structure Matrix where
  rows : Nat
  cols : Nat
  entry : Nat → Nat → ℚ

/-- C++ value equality of matrices: same dimensions and the same stored
(in-bounds) entries. -/
def Matrix.eqv (A B : Matrix) : Prop :=
  A.rows = B.rows ∧ A.cols = B.cols ∧
    ∀ i < A.rows, ∀ j < A.cols, A.entry i j = B.entry i j

/-- Matrix(rows, cols): zero-filled matrix (Matrix.hpp line 30). -/
def Matrix.zeros (r c : Nat) : Matrix :=
  ⟨r, c, fun _ _ => 0⟩

/-- operator+ (Matrix.hpp lines 75-86), its dimension check elided: at
every call site in the library both operands are same-sized Strassen
quadrants, so the mismatch throw is unreachable there. -/
def Matrix.add (A B : Matrix) : Matrix :=
  ⟨A.rows, A.cols, fun i j =>
    if i < A.rows ∧ j < A.cols then A.entry i j + B.entry i j else 0⟩

/-- operator- (Matrix.hpp lines 92-103), dimension check elided as for
`Matrix.add`. -/
def Matrix.sub (A B : Matrix) : Matrix :=
  ⟨A.rows, A.cols, fun i j =>
    if i < A.rows ∧ j < A.cols then A.entry i j - B.entry i j else 0⟩

/-- matrixMultiply (Product.hpp lines 23-36): classical triple loop; the
ikj accumulation order computes, for each output cell, the sum over the
shared dimension `A.cols`. -/
def matrixMultiply (A B : Matrix) : Matrix :=
  ⟨A.rows, B.cols, fun i j =>
    if i < A.rows ∧ j < B.cols then
      ∑ k in Finset.range A.cols, A.entry i k * B.entry k j
    else 0⟩

/-- getSubMatrix (Matrix.hpp lines 133-144): size×size copy starting at
(startRow, startCol). -/
def Matrix.getSubMatrix (A : Matrix) (startRow startCol size : Nat) : Matrix :=
  ⟨size, size, fun i j =>
    if i < size ∧ j < size then A.entry (startRow + i) (startCol + j) else 0⟩

/-- setSubMatrix (Matrix.hpp lines 147-156): overwrite the region of the
receiver starting at (startRow, startCol) with `sub`. -/
def Matrix.setSubMatrix (A : Matrix) (startRow startCol : Nat) (sub : Matrix) : Matrix :=
  ⟨A.rows, A.cols, fun i j =>
    if startRow ≤ i ∧ i < startRow + sub.rows ∧ startCol ≤ j ∧ j < startCol + sub.cols then
      sub.entry (i - startRow) (j - startCol)
    else A.entry i j⟩

/-- matrixPadding (Matrix.hpp lines 163-182): zero-pad to a
newSize×newSize square; returns the receiver unchanged when it already
has exactly that square shape. -/
def matrixPadding (A : Matrix) (newSize : Nat) : Matrix :=
  if newSize = A.rows ∧ newSize = A.cols then A
  else
    ⟨newSize, newSize, fun i j =>
      if i < newSize ∧ j < newSize then
        if i < A.rows ∧ j < A.cols then A.entry i j else 0
      else 0⟩

/-- matrixUnpadding (Matrix.hpp lines 184-193): top-left rows×cols
sub-region. -/
def Matrix.matrixUnpadding (A : Matrix) (rows cols : Nat) : Matrix :=
  ⟨rows, cols, fun i j => if i < rows ∧ j < cols then A.entry i j else 0⟩

/-- Loop body of nextPowerOfTwo (Helper.hpp lines 26-29): double `power`
while it is below `n`.  The C++ `while` is modelled with an explicit
iteration bound `fuel`; `nextPowerOfTwo` supplies a bound large enough
that the loop condition fails before the bound is reached. -/
def npotLoop (n : Nat) : Nat → Nat → Nat
  | 0, power => power
  | fuel + 1, power => if power < n then npotLoop n fuel (power * 2) else power

/-- nextPowerOfTwo (Helper.hpp lines 20-31). -/
def nextPowerOfTwo (n : Nat) : Nat :=
  if n = 0 then 1
  else if n &&& (n - 1) = 0 then n
  else npotLoop n n 1

/-- strassenMultiply (Product.hpp lines 53-94): recursive Strassen
multiplication with classical fallback for dimension at most 64. -/
def strassenMultiply (A B : Matrix) : Matrix :=
  if A.rows ≤ 64 then matrixMultiply A B
  else
    let newSize := A.rows / 2
    let A11 := A.getSubMatrix 0 0 newSize
    let A12 := A.getSubMatrix 0 newSize newSize
    let A21 := A.getSubMatrix newSize 0 newSize
    let A22 := A.getSubMatrix newSize newSize newSize
    let B11 := B.getSubMatrix 0 0 newSize
    let B12 := B.getSubMatrix 0 newSize newSize
    let B21 := B.getSubMatrix newSize 0 newSize
    let B22 := B.getSubMatrix newSize newSize newSize
    let M1 := strassenMultiply (A11.add A22) (B11.add B22)
    let M2 := strassenMultiply (A21.add A22) B11
    let M3 := strassenMultiply A11 (B12.sub B22)
    let M4 := strassenMultiply A22 (B21.sub B11)
    let M5 := strassenMultiply (A11.add A12) B22
    let M6 := strassenMultiply (A21.sub A11) (B11.add B12)
    let M7 := strassenMultiply (A12.sub A22) (B21.add B22)
    let C11 := ((M1.add M4).sub M5).add M7
    let C12 := M3.add M5
    let C21 := M2.add M4
    let C22 := ((M1.sub M2).add M3).add M6
    ((((Matrix.zeros A.rows A.rows).setSubMatrix 0 0 C11).setSubMatrix 0 newSize
        C12).setSubMatrix newSize 0 C21).setSubMatrix newSize newSize C22
termination_by A.rows
decreasing_by
  all_goals simp only [Matrix.add, Matrix.sub, Matrix.getSubMatrix]
  all_goals omega

/-- Error kinds thrown by the matrix operations (std::invalid_argument
messages in Matrix.hpp). -/
inductive MatrixError
  | incompatibleDimensions
  | dimensionMismatch
deriving DecidableEq

/-- operator* (Matrix.hpp lines 113-131): dimension check, threshold
dispatch between the classical product and the padded Strassen path. -/
def Matrix.matMul (A B : Matrix) : Except MatrixError Matrix :=
  if A.cols ≠ B.rows then Except.error MatrixError.incompatibleDimensions
  else if A.cols * A.rows < 64 ∨ B.cols * B.rows < 64 then
    Except.ok (matrixMultiply A B)
  else
    let maxDim := max (max A.rows A.cols) (max B.rows B.cols)
    let paddedSize := nextPowerOfTwo maxDim
    Except.ok
      (((strassenMultiply (matrixPadding A paddedSize)
          (matrixPadding B paddedSize))).matrixUnpadding A.rows B.cols)

/-- std::abs on the rational model of the floating element type. -/
def ratAbs (x : ℚ) : ℚ :=
  if x < 0 then -x else x

/-- Singularity tolerance 1e-15 of decomposeLU (LinearSolver.hpp line 72). -/
def tol : ℚ := 1 / 10 ^ 15

/-- LUResult (LinearSolver.hpp lines 13-18): packed LU matrix, the
permutation vector `P` (modelled as a function on indices), and the row
swap sign toggle. -/
structure LUResult where
  LU : Matrix
  P : Nat → Nat
  toggleSign : Int

/-- Working state of the decomposition loop: the fields of the LUResult
being built, plus `swaps`, a ghost counter (not present in the source)
recording how many times the row swap branch has executed; it is used
only to state the sign toggle property. -/
structure LUState where
  LU : Matrix
  P : Nat → Nat
  toggleSign : Int
  swaps : Nat

/-- Pivot search loop of decomposeLU (LinearSolver.hpp lines 52-59): scan
rows `j`, `j+1`, ... (`fuel` of them) of column `col` and return the index
of the first entry of maximal absolute value seen, starting from the
running maximum (`maxIndex`, `maxVal`); the comparison is strict, so ties
keep the earliest row. -/
def pivotGo (W : Matrix) (col : Nat) : Nat → Nat → Nat → ℚ → Nat
  | 0, _, maxIndex, _ => maxIndex
  | fuel + 1, j, maxIndex, maxVal =>
    if maxVal < ratAbs (W.entry j col) then pivotGo W col fuel (j + 1) j (ratAbs (W.entry j col))
    else pivotGo W col fuel (j + 1) maxIndex maxVal

/-- Pivot row chosen at step `i`: the scan starts at row `i + 1` with
running maximum `|W(i,i)|` at index `i` and runs to row `dim - 1`. -/
def pivotIndex (dim i : Nat) (W : Matrix) : Nat :=
  pivotGo W i (dim - (i + 1)) (i + 1) i (ratAbs (W.entry i i))

/-- Row swap of decomposeLU (LinearSolver.hpp lines 61-65): exchange rows
`i` and `q` on columns `i`, ..., `dim - 1` only (columns below `i` keep
their stored multipliers). -/
def swapRows (W : Matrix) (dim i q : Nat) : Matrix :=
  ⟨W.rows, W.cols, fun r c =>
    if i ≤ c ∧ c < dim then
      if r = i then W.entry q c
      else if r = q then W.entry i c
      else W.entry r c
    else W.entry r c⟩

/-- Pivoting phase of step `i` of decomposeLU (LinearSolver.hpp lines
52-71): find the pivot row and, if it differs from `i`, swap rows, swap
the permutation entries and flip the sign toggle. -/
def pivotPhase (dim i : Nat) (s : LUState) : LUState :=
  let q := pivotIndex dim i s.LU
  if q ≠ i then
    { LU := swapRows s.LU dim i q
      P := fun k => if k = i then s.P q else if k = q then s.P i else s.P k
      toggleSign := s.toggleSign * (-1)
      swaps := s.swaps + 1 }
  else s

/-- Elimination phase of step `i` of decomposeLU (LinearSolver.hpp lines
76-84): for every row `r` below `i`, store the multiplier in column `i`
and subtract the multiple of row `i` from the columns right of `i`. -/
def eliminate (dim i : Nat) (W : Matrix) : Matrix :=
  ⟨W.rows, W.cols, fun r c =>
    if i < r ∧ r < dim then
      if c = i then W.entry r i / W.entry i i
      else if i < c ∧ c < dim then
        W.entry r c - W.entry r i / W.entry i i * W.entry i c
      else W.entry r c
    else W.entry r c⟩

/-- One iteration of the main loop of decomposeLU (LinearSolver.hpp lines
51-85): pivot, then fail with the pivot index if the pivoted diagonal
entry is below the tolerance, else eliminate. -/
def luStep (dim i : Nat) (s : LUState) : Except Nat LUState :=
  let s1 := pivotPhase dim i s
  if ratAbs (s1.LU.entry i i) < tol then Except.error i
  else Except.ok { s1 with LU := eliminate dim i s1.LU }

/-- Main loop of decomposeLU: run `luStep` for indices `i`, `i+1`, ...
while they are below `dim`, for at most `fuel` iterations; the error of
the first failing step propagates. -/
def luRun (dim : Nat) : Nat → Nat → LUState → Except Nat LUState
  | 0, _, s => Except.ok s
  | fuel + 1, i, s =>
    if i < dim then
      match luStep dim i s with
      | Except.error e => Except.error e
      | Except.ok s2 => luRun dim fuel (i + 1) s2
    else Except.ok s

/-- Initial state of decomposeLU (LinearSolver.hpp lines 42-49): the
working matrix is a copy of `A`, the permutation is the identity, the
sign toggle is 1 (and the ghost swap counter is 0). -/
def luInit (A : Matrix) : LUState :=
  ⟨A, fun k => k, 1, 0⟩

/-- decomposeLU (LinearSolver.hpp lines 35-92): run all `A.rows` steps of
the elimination and package the result; a singular pivot aborts the whole
computation with the pivot index (the C++ throw). -/
def decomposeLU (A : Matrix) : Except Nat LUResult :=
  (luRun A.rows A.rows 0 (luInit A)).map fun s => ⟨s.LU, s.P, s.toggleSign⟩

/-- State-passing form of the call `decomposeLU(A)`: the pair of the
caller's matrix after the call and the returned value.  In the source the
only writes are to `result.LU` (initialised as a copy of `A`), `result.P`
and `result.toggleSign`; `A` is taken by const reference and only read,
so the caller's matrix after the call is `A` itself. -/
def decomposeLUCall (A : Matrix) : Matrix × Except Nat LUResult :=
  (A, decomposeLU A)

/-- Entry (i, k) of the unit lower-triangular factor L read off a packed
LUResult: strictly-lower entries come from the packed matrix, the
diagonal is the implicit 1. -/
def luLower (r : LUResult) (i k : Nat) : ℚ :=
  if k < i then r.LU.entry i k else if k = i then 1 else 0

/-- Entry (k, j) of the upper-triangular factor U read off a packed
LUResult: the upper triangle including the diagonal. -/
def luUpper (r : LUResult) (k j : Nat) : ℚ :=
  if k ≤ j then r.LU.entry k j else 0

/-- Entry (i, j) of the reconstructed product L·U of a packed LUResult of
dimension `dim`. -/
def luRecon (r : LUResult) (dim i j : Nat) : ℚ :=
  ∑ k in Finset.range dim, luLower r i k * luUpper r k j

/-- The matrix [[1, 2], [0, 0]] of the specification's singular-detection
example. -/
def matSingular : Matrix :=
  ⟨2, 2, fun i j =>
    if i = 0 ∧ j = 0 then 1 else if i = 0 ∧ j = 1 then 2 else 0⟩

/-- The matrix [[4, 1, 0], [1, 1, 0], [2, 3, 1]]: decomposing it performs
a row swap at elimination step 1, after multipliers were already stored
in column 0. -/
def matSwapped : Matrix :=
  ⟨3, 3, fun i j =>
    if i = 0 ∧ j = 0 then 4
    else if i = 0 ∧ j = 1 then 1
    else if i = 1 ∧ j = 0 then 1
    else if i = 1 ∧ j = 1 then 1
    else if i = 2 ∧ j = 0 then 2
    else if i = 2 ∧ j = 1 then 3
    else if i = 2 ∧ j = 2 then 1
    else 0⟩

/-- The 1×1 matrix [[1]], used as a concrete decomposable input. -/
def matOne : Matrix :=
  ⟨1, 1, fun _ _ => 1⟩

/-- Decidable equality of `Except` values, used to evaluate the model on
concrete inputs. -/
instance exceptDecEq {e a : Type} [DecidableEq e] [DecidableEq a] :
    DecidableEq (Except e a) := fun x y =>
  match x, y with
  | Except.ok u, Except.ok v =>
    if h : u = v then isTrue (by rw [h]) else isFalse (by intro hc; cases hc; exact h rfl)
  | Except.error u, Except.error v =>
    if h : u = v then isTrue (by rw [h]) else isFalse (by intro hc; cases hc; exact h rfl)
  | Except.ok _, Except.error _ => isFalse (by intro hc; cases hc)
  | Except.error _, Except.ok _ => isFalse (by intro hc; cases hc)

attribute [local semireducible] Rat.mul Rat.add Rat.sub Rat.inv

lemma eqv_refl (A : Matrix) : A.eqv A :=
  ⟨rfl, rfl, fun _ _ _ _ => rfl⟩

lemma matrixPadding_rows (A : Matrix) (s : Nat) : (matrixPadding A s).rows = s := by
  unfold matrixPadding
  by_cases h : s = A.rows ∧ s = A.cols
  · rw [if_pos h]; exact h.1.symm
  · rw [if_neg h]

lemma matrixPadding_cols (A : Matrix) (s : Nat) : (matrixPadding A s).cols = s := by
  unfold matrixPadding
  by_cases h : s = A.rows ∧ s = A.cols
  · rw [if_pos h]; exact h.2.symm
  · rw [if_neg h]

lemma matrixPadding_entry (A : Matrix) (s i j : Nat) (hi : i < s) (hj : j < s) :
    (matrixPadding A s).entry i j =
      if i < A.rows ∧ j < A.cols then A.entry i j else 0 := by
  unfold matrixPadding
  by_cases h : s = A.rows ∧ s = A.cols
  · rw [if_pos h]
    rw [if_pos ⟨h.1 ▸ hi, h.2 ▸ hj⟩]
  · rw [if_neg h]
    exact if_pos ⟨hi, hj⟩

/-- Claim C5: padding a matrix to any square size at least as large as
both of its dimensions and then unpadding back to the original dimensions
returns a matrix equal (as a C++ value: dimensions and all stored
entries) to the original. -/
theorem padding_roundtrip (M : Matrix) (newSize : Nat)
    (h : max M.rows M.cols ≤ newSize) :
    Matrix.eqv ((matrixPadding M newSize).matrixUnpadding M.rows M.cols) M := by
  refine ⟨rfl, rfl, ?_⟩
  intro i hi j hj
  show (if i < M.rows ∧ j < M.cols then (matrixPadding M newSize).entry i j else 0)
      = M.entry i j
  rw [if_pos ⟨hi, hj⟩]
  rw [matrixPadding_entry M newSize i j
        (lt_of_lt_of_le hi (le_trans (le_max_left _ _) h))
        (lt_of_lt_of_le hj (le_trans (le_max_right _ _) h))]
  exact if_pos ⟨hi, hj⟩

/-- Witness for C5 at the concrete input `matOne` padded to size 2. -/
theorem padding_roundtrip_witness :
    max matOne.rows matOne.cols ≤ 2 ∧
      Matrix.eqv ((matrixPadding matOne 2).matrixUnpadding matOne.rows matOne.cols) matOne :=
  ⟨by decide, padding_roundtrip matOne 2 (by decide)⟩

/-- Claim C6: operator* fails with the incompatible-dimensions error
exactly when the left operand's column count differs from the right
operand's row count, and on compatible operands it returns a result. -/
theorem matMul_error_characterization (A B : Matrix) :
    (Matrix.matMul A B = Except.error MatrixError.incompatibleDimensions ↔
        A.cols ≠ B.rows) ∧
    (A.cols = B.rows → ∃ C, Matrix.matMul A B = Except.ok C) := by
  constructor
  · constructor
    · intro h hc
      unfold Matrix.matMul at h
      rw [if_neg (by exact fun hne => hne hc)] at h
      by_cases ht : A.cols * A.rows < 64 ∨ B.cols * B.rows < 64
      · rw [if_pos ht] at h; exact Except.noConfusion h
      · rw [if_neg ht] at h; exact Except.noConfusion h
    · intro h
      unfold Matrix.matMul
      rw [if_pos h]
  · intro h
    unfold Matrix.matMul
    rw [if_neg (by exact fun hne => hne h)]
    by_cases ht : A.cols * A.rows < 64 ∨ B.cols * B.rows < 64
    · rw [if_pos ht]; exact ⟨_, rfl⟩
    · rw [if_neg ht]; exact ⟨_, rfl⟩

/-- Witness for C6 at the concrete incompatible pair (matSingular, matOne),
whose column and row counts are 2 and 1. -/
theorem matMul_error_characterization_witness :
    Matrix.matMul matSingular matOne =
      Except.error MatrixError.incompatibleDimensions :=
  (matMul_error_characterization matSingular matOne).1.2 (by decide)

/-- Claim C8: the call decomposeLU(A) leaves the caller's matrix intact:
after the call it has the same dimensions and the same entries.  The
source operates on `result.LU`, a copy of `A`, and never writes through
the const reference `A`. -/
theorem decomposeLU_preserves_input (A : Matrix) :
    (decomposeLUCall A).1.rows = A.rows ∧
    (decomposeLUCall A).1.cols = A.cols ∧
    ∀ i j, (decomposeLUCall A).1.entry i j = A.entry i j :=
  ⟨rfl, rfl, fun _ _ => rfl⟩

/-- Witness for C8 at the concrete input matSwapped. -/
theorem decomposeLU_preserves_input_witness :
    (decomposeLUCall matSwapped).1.rows = matSwapped.rows ∧
    (decomposeLUCall matSwapped).1.entry 2 1 = matSwapped.entry 2 1 :=
  ⟨(decomposeLU_preserves_input matSwapped).1,
    (decomposeLU_preserves_input matSwapped).2.2 2 1⟩

lemma n_lt_two_pow (n : Nat) : n < 2 ^ n := by
  induction n with
  | zero => decide
  | succ m ih => rw [pow_succ]; omega

lemma npotLoop_ge (n : Nat) :
    ∀ fuel power, n ≤ 2 ^ fuel * power → n ≤ npotLoop n fuel power := by
  intro fuel
  induction fuel with
  | zero => intro power h; simpa using h
  | succ f ih =>
    intro power h
    show n ≤ (if power < n then npotLoop n f (power * 2) else power)
    by_cases hp : power < n
    · rw [if_pos hp]
      refine ih (power * 2) ?_
      have he : 2 ^ (f + 1) * power = 2 ^ f * (power * 2) := by rw [pow_succ]; ring
      omega
    · rw [if_neg hp]; omega

lemma npotLoop_pow (n : Nat) :
    ∀ fuel power, ∃ k, npotLoop n fuel power = power * 2 ^ k := by
  intro fuel
  induction fuel with
  | zero => intro power; exact ⟨0, by simp [npotLoop]⟩
  | succ f ih =>
    intro power
    show (∃ k, (if power < n then npotLoop n f (power * 2) else power) = power * 2 ^ k)
    by_cases hp : power < n
    · rw [if_pos hp]
      obtain ⟨k, hk⟩ := ih (power * 2)
      exact ⟨k + 1, by rw [hk, pow_succ]; ring⟩
    · rw [if_neg hp]; exact ⟨0, by simp⟩

lemma npotLoop_stop (n : Nat) :
    ∀ fuel power, n ≤ power → npotLoop n fuel power = power := by
  intro fuel
  induction fuel with
  | zero => intro power _; rfl
  | succ f _ =>
    intro power h
    show (if power < n then npotLoop n f (power * 2) else power) = power
    rw [if_neg (by omega)]

lemma npotLoop_double (n : Nat) :
    ∀ fuel power, 0 < power → power < n → n ≤ 2 ^ fuel * power →
      ∃ p, p < n ∧ npotLoop n fuel power = 2 * p := by
  intro fuel
  induction fuel with
  | zero => intro power _ hlt h; simp at h; omega
  | succ f ih =>
    intro power hpos hlt h
    show (∃ p, p < n ∧ (if power < n then npotLoop n f (power * 2) else power) = 2 * p)
    rw [if_pos hlt]
    by_cases h2 : power * 2 < n
    · refine ih (power * 2) (by omega) h2 ?_
      have he : 2 ^ (f + 1) * power = 2 ^ f * (power * 2) := by rw [pow_succ]; ring
      omega
    · refine ⟨power, hlt, ?_⟩
      rw [npotLoop_stop n f (power * 2) (by omega)]
      ring

lemma two_pow_and_pred (k : Nat) : 2 ^ k &&& (2 ^ k - 1) = 0 := by
  apply Nat.eq_of_testBit_eq
  intro i
  rw [Nat.testBit_and, Nat.zero_testBit, Nat.testBit_two_pow,
    Nat.testBit_two_pow_sub_one]
  by_cases h : k = i
  · subst h; simp
  · simp [h]

lemma div_pow_eq_one {x b : Nat} (h1 : 2 ^ b ≤ x) (h2 : x < 2 ^ (b + 1)) :
    x / 2 ^ b = 1 := by
  apply Nat.div_eq_of_lt_le
  · simpa using h1
  · have he : (1 + 1) * 2 ^ b = 2 ^ (b + 1) := by rw [pow_succ]; ring
    omega

lemma testBit_top {x b : Nat} (h1 : 2 ^ b ≤ x) (h2 : x < 2 ^ (b + 1)) :
    Nat.testBit x b = true := by
  rw [Nat.testBit_to_div_mod, div_pow_eq_one h1 h2]
  simp

lemma and_pred_ne_zero (n : Nat) (h0 : n ≠ 0) (hnp : ∀ k, n ≠ 2 ^ k) :
    n &&& (n - 1) ≠ 0 := by
  intro hand
  have hb1 : 2 ^ n.log2 ≤ n := Nat.log2_self_le h0
  have hb2 : n < 2 ^ (n.log2 + 1) := Nat.lt_log2_self
  have hgt : 2 ^ n.log2 < n := lt_of_le_of_ne hb1 (fun he => hnp n.log2 he.symm)
  have ht1 : Nat.testBit n n.log2 = true := testBit_top hb1 hb2
  have ht2 : Nat.testBit (n - 1) n.log2 = true :=
    testBit_top (by omega) (by omega)
  have hz := congrArg (fun x => Nat.testBit x n.log2) hand
  simp only [Nat.testBit_and, Nat.zero_testBit, ht1, ht2, Bool.and_self] at hz
  exact Bool.noConfusion hz

lemma npot_pow (n : Nat) : ∃ k, nextPowerOfTwo n = 2 ^ k := by
  unfold nextPowerOfTwo
  by_cases h0 : n = 0
  · rw [if_pos h0]; exact ⟨0, rfl⟩
  · rw [if_neg h0]
    by_cases hb : n &&& (n - 1) = 0
    · rw [if_pos hb]
      by_cases hp : ∃ k, n = 2 ^ k
      · obtain ⟨k, hk⟩ := hp; exact ⟨k, hk⟩
      · exact absurd hb (and_pred_ne_zero n h0 (fun k he => hp ⟨k, he⟩))
    · rw [if_neg hb]
      obtain ⟨k, hk⟩ := npotLoop_pow n n 1
      exact ⟨k, by simpa using hk⟩

lemma npot_ge (n : Nat) : n ≤ nextPowerOfTwo n := by
  unfold nextPowerOfTwo
  by_cases h0 : n = 0
  · rw [if_pos h0]; omega
  · rw [if_neg h0]
    by_cases hb : n &&& (n - 1) = 0
    · rw [if_pos hb]
    · rw [if_neg hb]
      refine npotLoop_ge n n 1 ?_
      have := n_lt_two_pow n
      omega

lemma npot_min (n : Nat) (h0 : 0 < n) (hnp : ∀ k, n ≠ 2 ^ k) :
    ∀ m, n < 2 ^ m → nextPowerOfTwo n ≤ 2 ^ m := by
  intro m hm
  have h1n : 1 < n := by
    have := hnp 0
    omega
  have hb : n &&& (n - 1) ≠ 0 := and_pred_ne_zero n (by omega) hnp
  have hdef : nextPowerOfTwo n = npotLoop n n 1 := by
    unfold nextPowerOfTwo
    rw [if_neg (by omega), if_neg hb]
  obtain ⟨p, hpn, hp⟩ := npotLoop_double n n 1 (by omega) h1n
    (by have := n_lt_two_pow n; omega)
  obtain ⟨k, hk⟩ := npot_pow n
  have hge : n ≤ nextPowerOfTwo n := npot_ge n
  have hres : nextPowerOfTwo n = 2 * p := by rw [hdef, hp]
  have hk1 : 1 ≤ k := by
    by_contra hlt
    have hk0 : k = 0 := by omega
    rw [hk, hk0] at hge
    simp at hge
    omega
  have hpk : p = 2 ^ (k - 1) := by
    have he : 2 ^ k = 2 * 2 ^ (k - 1) := by
      calc 2 ^ k = 2 ^ (1 + (k - 1)) := by congr 1; omega
      _ = 2 * 2 ^ (k - 1) := by rw [pow_add]; ring
    rw [hk, he] at hres
    omega
  rw [hk]
  by_contra hcon
  have hmk : 2 ^ m < 2 ^ k := by omega
  have hmlt : m < k := by
    exact (Nat.pow_lt_pow_iff_right (by omega)).1 hmk
  have : 2 ^ m ≤ 2 ^ (k - 1) := Nat.pow_le_pow_right (by omega) (by omega)
  omega

/-- Claim C4: nextPowerOfTwo maps 0 to 1, fixes every power of two, and
maps every other positive integer to the smallest power of two strictly
above it. -/
theorem nextPowerOfTwo_correct :
    nextPowerOfTwo 0 = 1 ∧
    (∀ k, nextPowerOfTwo (2 ^ k) = 2 ^ k) ∧
    (∀ n, 0 < n → (∀ k, n ≠ 2 ^ k) →
      (∃ k, nextPowerOfTwo n = 2 ^ k) ∧ n < nextPowerOfTwo n ∧
        ∀ m, n < 2 ^ m → nextPowerOfTwo n ≤ 2 ^ m) := by
  refine ⟨rfl, ?_, ?_⟩
  · intro k
    unfold nextPowerOfTwo
    have hpos : 0 < 2 ^ k := Nat.pos_pow_of_pos k (by omega)
    rw [if_neg (by omega), if_pos (two_pow_and_pred k)]
  · intro n hn hnp
    obtain ⟨k, hk⟩ := npot_pow n
    refine ⟨⟨k, hk⟩, ?_, npot_min n hn hnp⟩
    have hge := npot_ge n
    have hne : n ≠ nextPowerOfTwo n := by rw [hk]; exact hnp k
    omega

/-- Witness for C4 at the concrete non-power input 5, whose next power of
two is strictly above 5 and below 2 to the 3. -/
theorem nextPowerOfTwo_correct_witness :
    5 < nextPowerOfTwo 5 ∧ nextPowerOfTwo 5 ≤ 2 ^ 3 := by
  have h5 : ∀ k, 5 ≠ 2 ^ k := by
    intro k
    match k with
    | 0 => decide
    | 1 => decide
    | 2 => decide
    | m + 3 =>
      have h8 : (8 : Nat) ≤ 2 ^ (m + 3) := by
        calc (8 : Nat) = 2 ^ 3 := rfl
        _ ≤ 2 ^ (m + 3) := Nat.pow_le_pow_right (by decide) (by omega)
      omega
  obtain ⟨_, hlt, hmin⟩ := nextPowerOfTwo_correct.2.2 5 (by decide) h5
  exact ⟨hlt, hmin 3 (by decide)⟩

lemma mul_entry (A B : Matrix) (i j : Nat) (hi : i < A.rows) (hj : j < B.cols) :
    (matrixMultiply A B).entry i j =
      ∑ k in Finset.range A.cols, A.entry i k * B.entry k j := by
  simp [matrixMultiply, hi, hj]

lemma getSub_entry (A : Matrix) (r0 c0 m i j : Nat) (hi : i < m) (hj : j < m) :
    (A.getSubMatrix r0 c0 m).entry i j = A.entry (r0 + i) (c0 + j) := by
  simp [Matrix.getSubMatrix, hi, hj]

lemma comboAdd_entry (A : Matrix) (r1 c1 r2 c2 m i j : Nat)
    (hi : i < m) (hj : j < m) :
    ((A.getSubMatrix r1 c1 m).add (A.getSubMatrix r2 c2 m)).entry i j
      = A.entry (r1 + i) (c1 + j) + A.entry (r2 + i) (c2 + j) := by
  simp [Matrix.add, Matrix.getSubMatrix, hi, hj]

lemma comboSub_entry (A : Matrix) (r1 c1 r2 c2 m i j : Nat)
    (hi : i < m) (hj : j < m) :
    ((A.getSubMatrix r1 c1 m).sub (A.getSubMatrix r2 c2 m)).entry i j
      = A.entry (r1 + i) (c1 + j) - A.entry (r2 + i) (c2 + j) := by
  simp [Matrix.sub, Matrix.getSubMatrix, hi, hj]

lemma mul_block_entry (A B : Matrix) (m : Nat)
    (hAr : A.rows = m + m) (hAc : A.cols = m + m)
    (r c : Nat) (hr : r < m + m) (hc : c < B.cols) :
    (matrixMultiply A B).entry r c =
      (∑ t in Finset.range m, A.entry r t * B.entry t c) +
        ∑ t in Finset.range m, A.entry r (m + t) * B.entry (m + t) c := by
  rw [mul_entry A B r c (by omega) hc, hAc]
  have hsplit : (∑ k in Finset.range (m + m), A.entry r k * B.entry k c)
      = (∑ k in Finset.Ico 0 m, A.entry r k * B.entry k c)
        + ∑ k in Finset.Ico m (m + m), A.entry r k * B.entry k c := by
    rw [Finset.sum_Ico_consecutive (fun t => A.entry r t * B.entry t c)
      (Nat.zero_le m) (by omega : m ≤ m + m)]
    rw [Finset.range_eq_Ico]
  rw [hsplit]
  congr 1
  · rw [← Finset.range_eq_Ico]
  · rw [Finset.sum_Ico_eq_sum_range]
    have hmm2 : m + m - m = m := by omega
    rw [hmm2]

lemma assemble_entry (n m : Nat) (hn : n = m + m) (C11 C12 C21 C22 : Matrix)
    (h11r : C11.rows = m) (h11c : C11.cols = m)
    (h12r : C12.rows = m) (h12c : C12.cols = m)
    (h21r : C21.rows = m) (h21c : C21.cols = m)
    (h22r : C22.rows = m) (h22c : C22.cols = m)
    (r c : Nat) (hr : r < n) (hc : c < n) :
    (((((Matrix.zeros n n).setSubMatrix 0 0 C11).setSubMatrix 0 m
          C12).setSubMatrix m 0 C21).setSubMatrix m m C22).entry r c =
      if r < m then
        (if c < m then C11.entry r c else C12.entry r (c - m))
      else
        (if c < m then C21.entry (r - m) c else C22.entry (r - m) (c - m)) := by
  subst hn
  simp only [Matrix.setSubMatrix, Matrix.zeros, h11r, h11c, h12r, h12c, h21r,
    h21c, h22r, h22c, Nat.sub_zero]
  split_ifs <;> first | rfl | omega

lemma add_entry (A B : Matrix) (i j : Nat) (hi : i < A.rows) (hj : j < A.cols) :
    (A.add B).entry i j = A.entry i j + B.entry i j := by
  show (if i < A.rows ∧ j < A.cols then A.entry i j + B.entry i j else 0) = _
  rw [if_pos ⟨hi, hj⟩]

lemma sub_entry (A B : Matrix) (i j : Nat) (hi : i < A.rows) (hj : j < A.cols) :
    (A.sub B).entry i j = A.entry i j - B.entry i j := by
  show (if i < A.rows ∧ j < A.cols then A.entry i j - B.entry i j else 0) = _
  rw [if_pos ⟨hi, hj⟩]

lemma matrix_ext {A B : Matrix} (hr : A.rows = B.rows) (hc : A.cols = B.cols)
    (he : ∀ i j, A.entry i j = B.entry i j) : A = B := by
  cases A
  cases B
  rw [Matrix.mk.injEq]
  exact ⟨hr, hc, funext fun i => funext fun j => he i j⟩

lemma mul_outside (A B : Matrix) (r c : Nat) (h : ¬(r < A.rows ∧ c < B.cols)) :
    (matrixMultiply A B).entry r c = 0 := by
  show (if r < A.rows ∧ c < B.cols then _ else 0) = 0
  rw [if_neg h]

lemma assemble_outside (n m : Nat) (hn : n = m + m) (C11 C12 C21 C22 : Matrix)
    (h11r : C11.rows = m) (h11c : C11.cols = m)
    (h12r : C12.rows = m) (h12c : C12.cols = m)
    (h21r : C21.rows = m) (h21c : C21.cols = m)
    (h22r : C22.rows = m) (h22c : C22.cols = m)
    (r c : Nat) (h : ¬(r < n ∧ c < n)) :
    (((((Matrix.zeros n n).setSubMatrix 0 0 C11).setSubMatrix 0 m
          C12).setSubMatrix m 0 C21).setSubMatrix m m C22).entry r c = 0 := by
  subst hn
  simp only [Matrix.setSubMatrix, Matrix.zeros, h11r, h11c, h12r, h12c, h21r,
    h21c, h22r, h22c, Nat.sub_zero]
  split_ifs <;> first | rfl | omega

lemma M1_entry (A B : Matrix) (m i j : Nat) (hi : i < m) (hj : j < m) :
    (matrixMultiply ((A.getSubMatrix 0 0 m).add (A.getSubMatrix m m m))
        ((B.getSubMatrix 0 0 m).add (B.getSubMatrix m m m))).entry i j
      = ∑ t in Finset.range m,
          (A.entry i t + A.entry (m + i) (m + t)) *
            (B.entry t j + B.entry (m + t) (m + j)) := by
  rw [mul_entry ((A.getSubMatrix 0 0 m).add (A.getSubMatrix m m m))
    ((B.getSubMatrix 0 0 m).add (B.getSubMatrix m m m)) i j hi hj]
  apply Finset.sum_congr (by rfl)
  intro t ht
  have htm : t < m := Finset.mem_range.1 ht
  rw [comboAdd_entry A 0 0 m m m i t hi htm, comboAdd_entry B 0 0 m m m t j htm hj]
  simp only [Nat.zero_add]

lemma M2_entry (A B : Matrix) (m i j : Nat) (hi : i < m) (hj : j < m) :
    (matrixMultiply ((A.getSubMatrix m 0 m).add (A.getSubMatrix m m m))
        (B.getSubMatrix 0 0 m)).entry i j
      = ∑ t in Finset.range m,
          (A.entry (m + i) t + A.entry (m + i) (m + t)) * B.entry t j := by
  rw [mul_entry ((A.getSubMatrix m 0 m).add (A.getSubMatrix m m m))
    (B.getSubMatrix 0 0 m) i j hi hj]
  apply Finset.sum_congr (by rfl)
  intro t ht
  have htm : t < m := Finset.mem_range.1 ht
  rw [comboAdd_entry A m 0 m m m i t hi htm, getSub_entry B 0 0 m t j htm hj]
  simp only [Nat.zero_add]

lemma M3_entry (A B : Matrix) (m i j : Nat) (hi : i < m) (hj : j < m) :
    (matrixMultiply (A.getSubMatrix 0 0 m)
        ((B.getSubMatrix 0 m m).sub (B.getSubMatrix m m m))).entry i j
      = ∑ t in Finset.range m,
          A.entry i t * (B.entry t (m + j) - B.entry (m + t) (m + j)) := by
  rw [mul_entry (A.getSubMatrix 0 0 m)
    ((B.getSubMatrix 0 m m).sub (B.getSubMatrix m m m)) i j hi hj]
  apply Finset.sum_congr (by rfl)
  intro t ht
  have htm : t < m := Finset.mem_range.1 ht
  rw [getSub_entry A 0 0 m i t hi htm, comboSub_entry B 0 m m m m t j htm hj]
  simp only [Nat.zero_add]

lemma M4_entry (A B : Matrix) (m i j : Nat) (hi : i < m) (hj : j < m) :
    (matrixMultiply (A.getSubMatrix m m m)
        ((B.getSubMatrix m 0 m).sub (B.getSubMatrix 0 0 m))).entry i j
      = ∑ t in Finset.range m,
          A.entry (m + i) (m + t) * (B.entry (m + t) j - B.entry t j) := by
  rw [mul_entry (A.getSubMatrix m m m)
    ((B.getSubMatrix m 0 m).sub (B.getSubMatrix 0 0 m)) i j hi hj]
  apply Finset.sum_congr (by rfl)
  intro t ht
  have htm : t < m := Finset.mem_range.1 ht
  rw [getSub_entry A m m m i t hi htm, comboSub_entry B m 0 0 0 m t j htm hj]
  simp only [Nat.zero_add]

lemma M5_entry (A B : Matrix) (m i j : Nat) (hi : i < m) (hj : j < m) :
    (matrixMultiply ((A.getSubMatrix 0 0 m).add (A.getSubMatrix 0 m m))
        (B.getSubMatrix m m m)).entry i j
      = ∑ t in Finset.range m,
          (A.entry i t + A.entry i (m + t)) * B.entry (m + t) (m + j) := by
  rw [mul_entry ((A.getSubMatrix 0 0 m).add (A.getSubMatrix 0 m m))
    (B.getSubMatrix m m m) i j hi hj]
  apply Finset.sum_congr (by rfl)
  intro t ht
  have htm : t < m := Finset.mem_range.1 ht
  rw [comboAdd_entry A 0 0 0 m m i t hi htm, getSub_entry B m m m t j htm hj]
  simp only [Nat.zero_add]

lemma M6_entry (A B : Matrix) (m i j : Nat) (hi : i < m) (hj : j < m) :
    (matrixMultiply ((A.getSubMatrix m 0 m).sub (A.getSubMatrix 0 0 m))
        ((B.getSubMatrix 0 0 m).add (B.getSubMatrix 0 m m))).entry i j
      = ∑ t in Finset.range m,
          (A.entry (m + i) t - A.entry i t) *
            (B.entry t j + B.entry t (m + j)) := by
  rw [mul_entry ((A.getSubMatrix m 0 m).sub (A.getSubMatrix 0 0 m))
    ((B.getSubMatrix 0 0 m).add (B.getSubMatrix 0 m m)) i j hi hj]
  apply Finset.sum_congr (by rfl)
  intro t ht
  have htm : t < m := Finset.mem_range.1 ht
  rw [comboSub_entry A m 0 0 0 m i t hi htm, comboAdd_entry B 0 0 0 m m t j htm hj]
  simp only [Nat.zero_add]

lemma M7_entry (A B : Matrix) (m i j : Nat) (hi : i < m) (hj : j < m) :
    (matrixMultiply ((A.getSubMatrix 0 m m).sub (A.getSubMatrix m m m))
        ((B.getSubMatrix m 0 m).add (B.getSubMatrix m m m))).entry i j
      = ∑ t in Finset.range m,
          (A.entry i (m + t) - A.entry (m + i) (m + t)) *
            (B.entry (m + t) j + B.entry (m + t) (m + j)) := by
  rw [mul_entry ((A.getSubMatrix 0 m m).sub (A.getSubMatrix m m m))
    ((B.getSubMatrix m 0 m).add (B.getSubMatrix m m m)) i j hi hj]
  apply Finset.sum_congr (by rfl)
  intro t ht
  have htm : t < m := Finset.mem_range.1 ht
  rw [comboSub_entry A 0 m m m m i t hi htm, comboAdd_entry B m 0 m m m t j htm hj]
  simp only [Nat.zero_add]

lemma regionC11 (A B : Matrix) (m r c : Nat) (hr : r < m) (hc : c < m) :
    ((((matrixMultiply ((A.getSubMatrix 0 0 m).add (A.getSubMatrix m m m))
          ((B.getSubMatrix 0 0 m).add (B.getSubMatrix m m m))).add
        (matrixMultiply (A.getSubMatrix m m m)
          ((B.getSubMatrix m 0 m).sub (B.getSubMatrix 0 0 m)))).sub
        (matrixMultiply ((A.getSubMatrix 0 0 m).add (A.getSubMatrix 0 m m))
          (B.getSubMatrix m m m))).add
        (matrixMultiply ((A.getSubMatrix 0 m m).sub (A.getSubMatrix m m m))
          ((B.getSubMatrix m 0 m).add (B.getSubMatrix m m m)))).entry r c
      = (∑ t in Finset.range m, A.entry r t * B.entry t c) +
          ∑ t in Finset.range m, A.entry r (m + t) * B.entry (m + t) c := by
  rw [add_entry, sub_entry, add_entry]
  rotate_left
  · exact hr
  · exact hc
  · exact hr
  · exact hc
  · exact hr
  · exact hc
  rw [M1_entry A B m r c hr hc, M4_entry A B m r c hr hc,
    M5_entry A B m r c hr hc, M7_entry A B m r c hr hc]
  rw [← Finset.sum_add_distrib, ← Finset.sum_sub_distrib,
    ← Finset.sum_add_distrib, ← Finset.sum_add_distrib]
  apply Finset.sum_congr rfl
  intro t _
  ring

lemma regionC12 (A B : Matrix) (m r j2 : Nat) (hr : r < m) (hj : j2 < m) :
    ((matrixMultiply (A.getSubMatrix 0 0 m)
          ((B.getSubMatrix 0 m m).sub (B.getSubMatrix m m m))).add
        (matrixMultiply ((A.getSubMatrix 0 0 m).add (A.getSubMatrix 0 m m))
          (B.getSubMatrix m m m))).entry r j2
      = (∑ t in Finset.range m, A.entry r t * B.entry t (m + j2)) +
          ∑ t in Finset.range m, A.entry r (m + t) * B.entry (m + t) (m + j2) := by
  rw [add_entry]
  rotate_left
  · exact hr
  · exact hj
  rw [M3_entry A B m r j2 hr hj, M5_entry A B m r j2 hr hj]
  rw [← Finset.sum_add_distrib, ← Finset.sum_add_distrib]
  apply Finset.sum_congr rfl
  intro t _
  ring

lemma regionC21 (A B : Matrix) (m i2 c : Nat) (hi : i2 < m) (hc : c < m) :
    ((matrixMultiply ((A.getSubMatrix m 0 m).add (A.getSubMatrix m m m))
          (B.getSubMatrix 0 0 m)).add
        (matrixMultiply (A.getSubMatrix m m m)
          ((B.getSubMatrix m 0 m).sub (B.getSubMatrix 0 0 m)))).entry i2 c
      = (∑ t in Finset.range m, A.entry (m + i2) t * B.entry t c) +
          ∑ t in Finset.range m, A.entry (m + i2) (m + t) * B.entry (m + t) c := by
  rw [add_entry]
  rotate_left
  · exact hi
  · exact hc
  rw [M2_entry A B m i2 c hi hc, M4_entry A B m i2 c hi hc]
  rw [← Finset.sum_add_distrib, ← Finset.sum_add_distrib]
  apply Finset.sum_congr rfl
  intro t _
  ring

lemma regionC22 (A B : Matrix) (m i2 j2 : Nat) (hi : i2 < m) (hj : j2 < m) :
    ((((matrixMultiply ((A.getSubMatrix 0 0 m).add (A.getSubMatrix m m m))
          ((B.getSubMatrix 0 0 m).add (B.getSubMatrix m m m))).sub
        (matrixMultiply ((A.getSubMatrix m 0 m).add (A.getSubMatrix m m m))
          (B.getSubMatrix 0 0 m))).add
        (matrixMultiply (A.getSubMatrix 0 0 m)
          ((B.getSubMatrix 0 m m).sub (B.getSubMatrix m m m)))).add
        (matrixMultiply ((A.getSubMatrix m 0 m).sub (A.getSubMatrix 0 0 m))
          ((B.getSubMatrix 0 0 m).add (B.getSubMatrix 0 m m)))).entry i2 j2
      = (∑ t in Finset.range m, A.entry (m + i2) t * B.entry t (m + j2)) +
          ∑ t in Finset.range m,
            A.entry (m + i2) (m + t) * B.entry (m + t) (m + j2) := by
  rw [add_entry, add_entry, sub_entry]
  rotate_left
  · exact hi
  · exact hj
  · exact hi
  · exact hj
  · exact hi
  · exact hj
  rw [M1_entry A B m i2 j2 hi hj, M2_entry A B m i2 j2 hi hj,
    M3_entry A B m i2 j2 hi hj, M6_entry A B m i2 j2 hi hj]
  rw [← Finset.sum_sub_distrib, ← Finset.sum_add_distrib,
    ← Finset.sum_add_distrib, ← Finset.sum_add_distrib]
  apply Finset.sum_congr rfl
  intro t _
  ring

lemma strassen_assembled_eq (A B : Matrix) (m : Nat)
    (hAr : A.rows = m + m) (hAc : A.cols = m + m)
    (hBr : B.rows = m + m) (hBc : B.cols = m + m)
    (P1 P2 P3 P4 P5 P6 P7 : Matrix)
    (hP1 : P1 = matrixMultiply ((A.getSubMatrix 0 0 m).add (A.getSubMatrix m m m))
        ((B.getSubMatrix 0 0 m).add (B.getSubMatrix m m m)))
    (hP2 : P2 = matrixMultiply ((A.getSubMatrix m 0 m).add (A.getSubMatrix m m m))
        (B.getSubMatrix 0 0 m))
    (hP3 : P3 = matrixMultiply (A.getSubMatrix 0 0 m)
        ((B.getSubMatrix 0 m m).sub (B.getSubMatrix m m m)))
    (hP4 : P4 = matrixMultiply (A.getSubMatrix m m m)
        ((B.getSubMatrix m 0 m).sub (B.getSubMatrix 0 0 m)))
    (hP5 : P5 = matrixMultiply ((A.getSubMatrix 0 0 m).add (A.getSubMatrix 0 m m))
        (B.getSubMatrix m m m))
    (hP6 : P6 = matrixMultiply ((A.getSubMatrix m 0 m).sub (A.getSubMatrix 0 0 m))
        ((B.getSubMatrix 0 0 m).add (B.getSubMatrix 0 m m)))
    (hP7 : P7 = matrixMultiply ((A.getSubMatrix 0 m m).sub (A.getSubMatrix m m m))
        ((B.getSubMatrix m 0 m).add (B.getSubMatrix m m m))) :
    ((((Matrix.zeros A.rows A.rows).setSubMatrix 0 0
        (((P1.add P4).sub P5).add P7)).setSubMatrix 0 m
        (P3.add P5)).setSubMatrix m 0 (P2.add P4)).setSubMatrix m m
        (((P1.sub P2).add P3).add P6)
      = matrixMultiply A B := by
  subst hP1 hP2 hP3 hP4 hP5 hP6 hP7
  apply matrix_ext
  · rfl
  · show A.rows = B.cols
    rw [hAr, hBc]
  · intro r c
    by_cases hin : r < A.rows ∧ c < A.rows
    · obtain ⟨hr, hc⟩ := hin
      have hr2 : r < m + m := hAr ▸ hr
      have hc2 : c < m + m := hAr ▸ hc
      have hcB : c < B.cols := by rw [hBc]; omega
      rw [assemble_entry A.rows m hAr _ _ _ _ rfl rfl rfl rfl rfl rfl rfl rfl
        r c hr hc]
      rw [mul_block_entry A B m hAr hAc r c hr2 hcB]
      by_cases hrm : r < m
      · by_cases hcm : c < m
        · rw [if_pos hrm, if_pos hcm, regionC11 A B m r c hrm hcm]
        · rw [if_pos hrm, if_neg hcm,
            regionC12 A B m r (c - m) hrm (by omega),
            show m + (c - m) = c from by omega]
      · by_cases hcm : c < m
        · rw [if_neg hrm, if_pos hcm,
            regionC21 A B m (r - m) c (by omega) hcm,
            show m + (r - m) = r from by omega]
        · rw [if_neg hrm, if_neg hcm,
            regionC22 A B m (r - m) (c - m) (by omega) (by omega),
            show m + (r - m) = r from by omega,
            show m + (c - m) = c from by omega]
    · rw [assemble_outside A.rows m hAr _ _ _ _ rfl rfl rfl rfl rfl rfl rfl rfl
        r c hin]
      rw [mul_outside A B r c (by rw [hBc, ← hAr]; exact hin)]

lemma pow_split (k : Nat) : 2 ^ (k + 1) = 2 ^ k + 2 ^ k := by
  rw [pow_succ, Nat.mul_two]

lemma strassen_eq : ∀ (k : Nat) (A B : Matrix),
    A.rows = 2 ^ k → A.cols = 2 ^ k → B.rows = 2 ^ k → B.cols = 2 ^ k →
    strassenMultiply A B = matrixMultiply A B := by
  intro k
  induction k with
  | zero =>
    intro A B hAr _ _ _
    rw [strassenMultiply, if_pos (by rw [hAr]; norm_num)]
  | succ k ih =>
    intro A B hAr hAc hBr hBc
    by_cases hsmall : A.rows ≤ 64
    · rw [strassenMultiply, if_pos hsmall]
    · have hm : A.rows / 2 = 2 ^ k := by
        rw [hAr, pow_succ, Nat.mul_div_cancel _ (by omega : 0 < 2)]
      rw [strassenMultiply, if_neg hsmall, hm]
      exact strassen_assembled_eq A B (2 ^ k)
        (by rw [hAr, pow_split]) (by rw [hAc, pow_split])
        (by rw [hBr, pow_split]) (by rw [hBc, pow_split])
        _ _ _ _ _ _ _
        (ih _ _ rfl rfl rfl rfl) (ih _ _ rfl rfl rfl rfl)
        (ih _ _ rfl rfl rfl rfl) (ih _ _ rfl rfl rfl rfl)
        (ih _ _ rfl rfl rfl rfl) (ih _ _ rfl rfl rfl rfl)
        (ih _ _ rfl rfl rfl rfl)

lemma matrixMultiply_pad_entry (A B : Matrix) (s : Nat) (h1 : A.rows ≤ s)
    (h2 : A.cols ≤ s) (h3 : B.rows ≤ s) (h4 : B.cols ≤ s)
    (hcompat : A.cols = B.rows) (i j : Nat) (hi : i < A.rows) (hj : j < B.cols) :
    (matrixMultiply (matrixPadding A s) (matrixPadding B s)).entry i j
      = (matrixMultiply A B).entry i j := by
  rw [mul_entry (matrixPadding A s) (matrixPadding B s) i j
      (by rw [matrixPadding_rows]; omega) (by rw [matrixPadding_cols]; omega),
    mul_entry A B i j hi hj,
    show (matrixPadding A s).cols = s from matrixPadding_cols A s]
  rw [← Finset.sum_subset (Finset.range_subset.2 h2) ?hzero]
  case hzero =>
    intro t htmem htn
    have hts : t < s := Finset.mem_range.1 htmem
    have ht : ¬ t < A.cols := fun hlt => htn (Finset.mem_range.2 hlt)
    rw [matrixPadding_entry A s i t (by omega) hts,
      if_neg (by exact fun hand => ht hand.2), zero_mul]
  apply Finset.sum_congr rfl
  intro t ht
  have htc : t < A.cols := Finset.mem_range.1 ht
  rw [matrixPadding_entry A s i t (by omega) (by omega),
    matrixPadding_entry B s t j (by omega) (by omega),
    if_pos ⟨hi, htc⟩, if_pos ⟨by omega, hj⟩]

lemma strassen_padded_eq (A B : Matrix) (h : A.cols = B.rows) (s : Nat)
    (hpow : ∃ k, s = 2 ^ k) (h1 : A.rows ≤ s) (h2 : A.cols ≤ s)
    (h3 : B.rows ≤ s) (h4 : B.cols ≤ s) :
    Matrix.eqv
      ((strassenMultiply (matrixPadding A s)
          (matrixPadding B s)).matrixUnpadding A.rows B.cols)
      (matrixMultiply A B) := by
  obtain ⟨k, hk⟩ := hpow
  have hst := strassen_eq k (matrixPadding A s) (matrixPadding B s)
    (by rw [matrixPadding_rows, hk]) (by rw [matrixPadding_cols, hk])
    (by rw [matrixPadding_rows, hk]) (by rw [matrixPadding_cols, hk])
  refine ⟨rfl, rfl, ?_⟩
  intro i hi j hj
  show (if i < A.rows ∧ j < B.cols then
      (strassenMultiply (matrixPadding A s) (matrixPadding B s)).entry i j
    else 0) = _
  rw [if_pos ⟨hi, hj⟩, hst,
    matrixMultiply_pad_entry A B s h1 h2 h3 h4 h i j hi hj]

/-- Claim C2: for compatible operands the classical product and the
recursive path used by operator* — pad both operands with zeros to the
shared nextPowerOfTwo square of the largest dimension, run
strassenMultiply, unpad back to A.rows × B.cols — produce element-wise
equal results (exactly, over the exact rational model). -/
theorem multiplication_refinement (A B : Matrix) (h : A.cols = B.rows) :
    Matrix.eqv
      ((strassenMultiply
          (matrixPadding A
            (nextPowerOfTwo (max (max A.rows A.cols) (max B.rows B.cols))))
          (matrixPadding B
            (nextPowerOfTwo (max (max A.rows A.cols) (max B.rows B.cols))))).matrixUnpadding
        A.rows B.cols)
      (matrixMultiply A B) := by
  apply strassen_padded_eq A B h _ (npot_pow _)
  · exact le_trans (le_trans (le_max_left _ _) (le_max_left _ _)) (npot_ge _)
  · exact le_trans (le_trans (le_max_right _ _) (le_max_left _ _)) (npot_ge _)
  · exact le_trans (le_trans (le_max_left _ _) (le_max_right _ _)) (npot_ge _)
  · exact le_trans (le_trans (le_max_right _ _) (le_max_right _ _)) (npot_ge _)

/-- Witness for C2 at the concrete compatible pair (matOne, matOne). -/
theorem multiplication_refinement_witness :
    matOne.cols = matOne.rows ∧
      Matrix.eqv
        ((strassenMultiply
            (matrixPadding matOne
              (nextPowerOfTwo
                (max (max matOne.rows matOne.cols) (max matOne.rows matOne.cols))))
            (matrixPadding matOne
              (nextPowerOfTwo
                (max (max matOne.rows matOne.cols)
                  (max matOne.rows matOne.cols))))).matrixUnpadding
          matOne.rows matOne.cols)
        (matrixMultiply matOne matOne) :=
  ⟨rfl, multiplication_refinement matOne matOne rfl⟩

lemma ratAbs_eq_abs (x : ℚ) : ratAbs x = |x| := by
  unfold ratAbs
  by_cases h : x < 0
  · rw [if_pos h, abs_of_neg h]
  · rw [if_neg h, abs_of_nonneg (le_of_not_lt h)]

lemma luRun_succ (dim fuel i : Nat) (s : LUState) :
    luRun dim (fuel + 1) i s =
      if i < dim then
        (match luStep dim i s with
         | Except.error e => Except.error e
         | Except.ok s2 => luRun dim fuel (i + 1) s2)
      else Except.ok s := rfl

lemma luRun_stop (dim : Nat) :
    ∀ fuel i s, dim ≤ i → luRun dim fuel i s = Except.ok s := by
  intro fuel
  cases fuel with
  | zero => intro i s _; rfl
  | succ f => intro i s h; rw [luRun_succ, if_neg (by omega)]

lemma luRun_append (dim : Nat) :
    ∀ a b i s, luRun dim (a + b) i s
      = (luRun dim a i s).bind (fun t => luRun dim b (i + a) t) := by
  intro a
  induction a with
  | zero =>
    intro b i s
    rw [Nat.zero_add]
    show luRun dim b i s = luRun dim b (i + 0) s
    rfl
  | succ a ih =>
    intro b i s
    rw [show a + 1 + b = (a + b) + 1 from by omega, luRun_succ, luRun_succ]
    by_cases hi : i < dim
    · rw [if_pos hi, if_pos hi]
      cases hstep : luStep dim i s with
      | error e => rfl
      | ok s3 =>
        show luRun dim (a + b) (i + 1) s3 = _
        rw [ih b (i + 1) s3]
        simp only [show i + 1 + a = i + (a + 1) from by omega]
    · rw [if_neg hi, if_neg hi]
      show Except.ok s = luRun dim b (i + (a + 1)) s
      rw [luRun_stop dim b (i + (a + 1)) s (by omega)]

lemma luRun_error (dim : Nat) :
    ∀ fuel i s e, luRun dim fuel i s = Except.error e →
      ∃ j t, i ≤ j ∧ j < dim ∧ luRun dim (j - i) i s = Except.ok t ∧
        luStep dim j t = Except.error e := by
  intro fuel
  induction fuel with
  | zero => intro i s e h; exact Except.noConfusion h
  | succ f ih =>
    intro i s e h
    rw [luRun_succ] at h
    by_cases hi : i < dim
    · rw [if_pos hi] at h
      cases hstep : luStep dim i s with
      | error e2 =>
        rw [hstep] at h
        injection h with he
        subst he
        exact ⟨i, s, le_refl i, hi, by rw [Nat.sub_self]; rfl, hstep⟩
      | ok s3 =>
        rw [hstep] at h
        obtain ⟨j, t, hj1, hj2, hrun, hstep2⟩ := ih (i + 1) s3 e h
        refine ⟨j, t, by omega, hj2, ?_, hstep2⟩
        rw [show j - i = (j - (i + 1)) + 1 from by omega, luRun_succ,
          if_pos hi, hstep]
        show luRun dim (j - (i + 1)) (i + 1) s3 = Except.ok t
        exact hrun
    · rw [if_neg hi] at h
      exact Except.noConfusion h

lemma luRun_inv (dim : Nat) (Inv : Nat → LUState → Prop)
    (step : ∀ i s s2, i < dim → luStep dim i s = Except.ok s2 →
      Inv i s → Inv (i + 1) s2) :
    ∀ fuel i s s2, i + fuel = dim → luRun dim fuel i s = Except.ok s2 →
      Inv i s → Inv dim s2 := by
  intro fuel
  induction fuel with
  | zero =>
    intro i s s2 hif hrun hInv
    have hi : i = dim := by omega
    subst hi
    injection hrun with hs
    rw [← hs]
    exact hInv
  | succ f ih =>
    intro i s s2 hif hrun hInv
    have hi : i < dim := by omega
    rw [luRun_succ, if_pos hi] at hrun
    cases hstep : luStep dim i s with
    | error e => rw [hstep] at hrun; exact Except.noConfusion hrun
    | ok s3 =>
      rw [hstep] at hrun
      exact ih (i + 1) s3 s2 (by omega) hrun (step i s s3 hi hstep hInv)

lemma luStep_ok_iff (dim i : Nat) (s s2 : LUState) :
    luStep dim i s = Except.ok s2 ↔
      ¬ ratAbs ((pivotPhase dim i s).LU.entry i i) < tol ∧
        s2 = { pivotPhase dim i s with
                LU := eliminate dim i (pivotPhase dim i s).LU } := by
  unfold luStep
  by_cases hc : ratAbs ((pivotPhase dim i s).LU.entry i i) < tol
  · rw [if_pos hc]
    constructor
    · intro h; exact Except.noConfusion h
    · intro ⟨h1, _⟩; exact absurd hc h1
  · rw [if_neg hc]
    constructor
    · intro h; injection h with h2; exact ⟨hc, h2.symm⟩
    · intro ⟨_, h2⟩; rw [h2]

lemma luStep_error_iff (dim i : Nat) (s : LUState) (e : Nat) :
    luStep dim i s = Except.error e ↔
      e = i ∧ ratAbs ((pivotPhase dim i s).LU.entry i i) < tol := by
  unfold luStep
  by_cases hc : ratAbs ((pivotPhase dim i s).LU.entry i i) < tol
  · rw [if_pos hc]
    constructor
    · intro h; injection h with h2; exact ⟨h2.symm, hc⟩
    · intro ⟨h1, _⟩; rw [h1]
  · rw [if_neg hc]
    constructor
    · intro h; exact Except.noConfusion h
    · intro ⟨_, h2⟩; exact absurd h2 hc

lemma pivotGo_bound (W : Matrix) (col : Nat) :
    ∀ fuel j maxIndex maxVal,
      pivotGo W col fuel j maxIndex maxVal = maxIndex ∨
        (j ≤ pivotGo W col fuel j maxIndex maxVal ∧
          pivotGo W col fuel j maxIndex maxVal < j + fuel) := by
  intro fuel
  induction fuel with
  | zero => intro j maxIndex maxVal; exact Or.inl rfl
  | succ f ih =>
    intro j maxIndex maxVal
    rw [show pivotGo W col (f + 1) j maxIndex maxVal =
        if maxVal < ratAbs (W.entry j col) then
          pivotGo W col f (j + 1) j (ratAbs (W.entry j col))
        else pivotGo W col f (j + 1) maxIndex maxVal from rfl]
    by_cases hcmp : maxVal < ratAbs (W.entry j col)
    · rw [if_pos hcmp]
      rcases ih (j + 1) j (ratAbs (W.entry j col)) with h | ⟨h1, h2⟩
      · right; rw [h]; omega
      · right; omega
    · rw [if_neg hcmp]
      rcases ih (j + 1) maxIndex maxVal with h | ⟨h1, h2⟩
      · left; exact h
      · right; omega

lemma pivotIndex_bound (dim i : Nat) (W : Matrix) (h : i < dim) :
    i ≤ pivotIndex dim i W ∧ pivotIndex dim i W < dim := by
  unfold pivotIndex
  rcases pivotGo_bound W i (dim - (i + 1)) (i + 1) i (ratAbs (W.entry i i))
    with hq | ⟨h1, h2⟩
  · rw [hq]; omega
  · omega

lemma pivotPhase_cases (dim i : Nat) (s : LUState) (h : i < dim) :
    pivotPhase dim i s = s ∨
      ∃ q, i ≤ q ∧ q < dim ∧ q ≠ i ∧
        pivotPhase dim i s =
          { LU := swapRows s.LU dim i q
            P := fun k => if k = i then s.P q else if k = q then s.P i else s.P k
            toggleSign := s.toggleSign * (-1)
            swaps := s.swaps + 1 } := by
  unfold pivotPhase
  by_cases hq : pivotIndex dim i s.LU ≠ i
  · right
    obtain ⟨hb1, hb2⟩ := pivotIndex_bound dim i s.LU h
    exact ⟨pivotIndex dim i s.LU, hb1, hb2, hq, by rw [if_pos hq]⟩
  · left
    rw [if_neg hq]

lemma swapRows_entry_lowcol (W : Matrix) (dim i q r c : Nat) (h : c < i) :
    (swapRows W dim i q).entry r c = W.entry r c := by
  show (if i ≤ c ∧ c < dim then _ else W.entry r c) = _
  rw [if_neg (by omega)]

lemma swapRows_entry_otherrow (W : Matrix) (dim i q r c : Nat)
    (hr1 : r ≠ i) (hr2 : r ≠ q) :
    (swapRows W dim i q).entry r c = W.entry r c := by
  show (if i ≤ c ∧ c < dim then
      if r = i then W.entry q c else if r = q then W.entry i c else W.entry r c
    else W.entry r c) = _
  by_cases hc : i ≤ c ∧ c < dim
  · rw [if_pos hc, if_neg hr1, if_neg hr2]
  · rw [if_neg hc]

lemma eliminate_entry_top (dim i : Nat) (W : Matrix) (r c : Nat) (h : r ≤ i) :
    (eliminate dim i W).entry r c = W.entry r c := by
  show (if i < r ∧ r < dim then _ else W.entry r c) = _
  rw [if_neg (by omega)]

lemma swap_update_bijective (P : Nat → Nat) (i q : Nat)
    (hP : Function.Bijective P) :
    Function.Bijective
      (fun k => if k = i then P q else if k = q then P i else P k) := by
  have heq : (fun k => if k = i then P q else if k = q then P i else P k)
      = P ∘ ⇑(Equiv.swap i q) := by
    funext k
    show _ = P (Equiv.swap i q k)
    rw [Equiv.swap_apply_def]
    by_cases h1 : k = i
    · rw [if_pos h1, if_pos h1]
    · rw [if_neg h1, if_neg h1]
      by_cases h2 : k = q
      · rw [if_pos h2, if_pos h2]
      · rw [if_neg h2, if_neg h2]
  rw [heq]
  exact hP.comp (Equiv.swap i q).bijective

lemma perm_count (dim : Nat) (P : Nat → Nat) (hbij : Function.Bijective P)
    (hfix : ∀ k, dim ≤ k → P k = k) :
    ∀ k < dim, ((List.range dim).map P).count k = 1 := by
  intro k hk
  obtain ⟨m, hm⟩ := hbij.2 k
  have hmdim : m < dim := by
    by_contra hge
    have hfm : P m = m := hfix m (by omega)
    omega
  have hmem : k ∈ (List.range dim).map P :=
    List.mem_map.2 ⟨m, List.mem_range.2 hmdim, hm⟩
  have hnodup : ((List.range dim).map P).Nodup :=
    List.Nodup.map hbij.1 (List.nodup_range dim)
  exact List.count_eq_one_of_mem hnodup hmem

/-- Claim C7: on every successful decomposition the permutation record
maps the positions 0, ..., dimension−1 onto exactly those indices: each
index below the dimension occurs exactly once among P[0], ...,
P[dimension−1]. -/
theorem lu_P_permutation (A : Matrix) (r : LUResult)
    (h : decomposeLU A = Except.ok r) :
    ∀ k < A.rows, ((List.range A.rows).map r.P).count k = 1 := by
  unfold decomposeLU at h
  cases hrun : luRun A.rows A.rows 0 (luInit A) with
  | error e => rw [hrun] at h; exact Except.noConfusion h
  | ok s =>
    rw [hrun] at h
    injection h with h2
    have hInv : Function.Bijective s.P ∧ ∀ k, A.rows ≤ k → s.P k = k := by
      refine luRun_inv A.rows
        (fun _ st => Function.Bijective st.P ∧ ∀ k, A.rows ≤ k → st.P k = k)
        ?_ A.rows 0 (luInit A) s (by omega) hrun
        ⟨Function.bijective_id, fun _ _ => rfl⟩
      intro i st st2 hi hstep hpair
      obtain ⟨hbij, hfix⟩ := hpair
      obtain ⟨_, hs2⟩ := (luStep_ok_iff A.rows i st st2).1 hstep
      rcases pivotPhase_cases A.rows i st hi with hc | ⟨q, hq1, hq2, hq3, hc⟩
      · rw [hs2, hc]
        exact ⟨hbij, hfix⟩
      · rw [hs2, hc]
        refine ⟨swap_update_bijective st.P i q hbij, ?_⟩
        intro k hk
        show (if k = i then st.P q else if k = q then st.P i else st.P k) = k
        rw [if_neg (by omega), if_neg (by omega)]
        exact hfix k hk
    rw [← h2]
    exact perm_count A.rows s.P hInv.1 hInv.2

/-- Witness for C7: decomposing the concrete matrix [[1]] yields a
permutation in which the index 0 occurs exactly once. -/
theorem lu_P_permutation_witness :
    (decomposeLU matOne).map
      (fun r => ((List.range 1).map r.P).count 0) = Except.ok 1 := by
  obtain ⟨r, hr⟩ : ∃ r, decomposeLU matOne = Except.ok r := ⟨_, rfl⟩
  rw [hr]
  exact congrArg Except.ok (lu_P_permutation matOne r hr 0 (by decide))

/-- Claim C9: at the end of a run of the decomposition loop the sign
toggle equals (−1) to the number of row swaps actually performed (the
ghost swap counter of the state), and the returned LUResult carries
exactly that sign toggle. -/
theorem lu_toggleSign_parity (A : Matrix) (s : LUState)
    (h : luRun A.rows A.rows 0 (luInit A) = Except.ok s) :
    s.toggleSign = (-1 : Int) ^ s.swaps ∧
      decomposeLU A = Except.ok ⟨s.LU, s.P, s.toggleSign⟩ := by
  constructor
  · refine luRun_inv A.rows
      (fun _ st => st.toggleSign = (-1 : Int) ^ st.swaps)
      ?_ A.rows 0 (luInit A) s (by omega) h (by simp [luInit])
    intro i st st2 hi hstep hInv
    obtain ⟨_, hs2⟩ := (luStep_ok_iff A.rows i st st2).1 hstep
    rcases pivotPhase_cases A.rows i st hi with hc | ⟨q, _, _, _, hc⟩
    · rw [hs2, hc]
      exact hInv
    · rw [hs2, hc]
      show st.toggleSign * (-1) = (-1 : Int) ^ (st.swaps + 1)
      rw [hInv, pow_succ]
  · unfold decomposeLU
    rw [h]
    rfl

/-- Witness for C9 at the concrete input [[1]], whose run performs no
swap and ends with sign toggle 1. -/
theorem lu_toggleSign_parity_witness :
    (luRun matOne.rows matOne.rows 0 (luInit matOne)).map
      (fun s => decide (s.toggleSign = (-1 : Int) ^ s.swaps))
      = Except.ok true := by
  obtain ⟨s, hs⟩ :
      ∃ s, luRun matOne.rows matOne.rows 0 (luInit matOne) = Except.ok s :=
    ⟨_, rfl⟩
  rw [hs]
  show Except.ok (decide (s.toggleSign = (-1 : Int) ^ s.swaps)) = Except.ok true
  rw [decide_eq_true ((lu_toggleSign_parity matOne s hs).1)]

/-- Claim C10: every diagonal entry of the packed LU matrix of a
successful decomposition has magnitude at least the 1e-15 tolerance; in
particular it is nonzero, so the divisions by LU(i,i) in the backward
substitution of solve are never divisions by zero. -/
theorem lu_diagonal_bound (A : Matrix) (r : LUResult)
    (h : decomposeLU A = Except.ok r) :
    ∀ i < A.rows, tol ≤ |r.LU.entry i i| ∧ r.LU.entry i i ≠ 0 := by
  unfold decomposeLU at h
  cases hrun : luRun A.rows A.rows 0 (luInit A) with
  | error e => rw [hrun] at h; exact Except.noConfusion h
  | ok s =>
    rw [hrun] at h
    injection h with h2
    have hInv : ∀ t < A.rows, tol ≤ ratAbs (s.LU.entry t t) := by
      refine luRun_inv A.rows
        (fun i st => ∀ t < i, tol ≤ ratAbs (st.LU.entry t t)) ?_ A.rows 0
        (luInit A) s (by omega) hrun ?_
      · intro i st st2 hi hstep hInv t ht
        obtain ⟨hok, hs2⟩ := (luStep_ok_iff A.rows i st st2).1 hstep
        by_cases hti : t < i
        · have hpp : (pivotPhase A.rows i st).LU.entry t t
              = st.LU.entry t t := by
            rcases pivotPhase_cases A.rows i st hi with hc | ⟨q, hq1, _, _, hc⟩
            · rw [hc]
            · rw [hc]
              exact swapRows_entry_lowcol st.LU A.rows i q t t hti
          rw [hs2]
          show tol ≤ ratAbs
            ((eliminate A.rows i (pivotPhase A.rows i st).LU).entry t t)
          rw [eliminate_entry_top A.rows i _ t t (by omega), hpp]
          exact hInv t hti
        · have hteq : t = i := by omega
          subst hteq
          rw [hs2]
          show tol ≤ ratAbs
            ((eliminate A.rows t (pivotPhase A.rows t st).LU).entry t t)
          rw [eliminate_entry_top A.rows t _ t t (le_refl t)]
          exact le_of_not_lt hok
      · intro t ht
        omega
    intro i hi
    have hb := hInv i hi
    rw [← h2]
    constructor
    · show tol ≤ |s.LU.entry i i|
      rw [← ratAbs_eq_abs]
      exact hb
    · show s.LU.entry i i ≠ 0
      intro h0
      rw [h0] at hb
      have htolpos : (0 : ℚ) < tol := by norm_num [tol]
      have habs0 : ratAbs (0 : ℚ) = 0 := by norm_num [ratAbs]
      rw [habs0] at hb
      linarith

/-- Witness for C10 at the concrete input [[1]], whose single diagonal
entry is nonzero. -/
theorem lu_diagonal_bound_witness :
    (decomposeLU matOne).map
      (fun r => decide (r.LU.entry 0 0 = 0)) = Except.ok false := by
  obtain ⟨r, hr⟩ : ∃ r, decomposeLU matOne = Except.ok r := ⟨_, rfl⟩
  rw [hr]
  show Except.ok (decide (r.LU.entry 0 0 = 0)) = Except.ok false
  rw [decide_eq_false ((lu_diagonal_bound matOne r hr 0 (by decide)).2)]

lemma map_eq_error {a b c : Type} (x : Except a b) (f : b → c) (e : a)
    (h : x.map f = Except.error e) : x = Except.error e := by
  cases x with
  | error e2 =>
    injection h with he
    rw [he]
  | ok v => exact Except.noConfusion h

/-- Claim C3: decomposeLU fails with the singular-matrix error carrying
pivot index i exactly when the first i elimination steps succeed and, at
step i after row pivoting, the magnitude of the diagonal entry (i,i) of
the working matrix is below the 1e-15 tolerance (no result is returned in
that case, by the Except semantics); in particular decomposing
[[1, 2], [0, 0]] fails with pivot index 1. -/
theorem lu_singular_error :
    (∀ (A : Matrix) (i : Nat),
      decomposeLU A = Except.error i ↔
        i < A.rows ∧ ∃ s, luRun A.rows i 0 (luInit A) = Except.ok s ∧
          |(pivotPhase A.rows i s).LU.entry i i| < tol) ∧
    decomposeLU matSingular = Except.error 1 := by
  have hchar : ∀ (A : Matrix) (i : Nat),
      decomposeLU A = Except.error i ↔
        i < A.rows ∧ ∃ s, luRun A.rows i 0 (luInit A) = Except.ok s ∧
          |(pivotPhase A.rows i s).LU.entry i i| < tol := by
    intro A i
    constructor
    · intro h
      unfold decomposeLU at h
      cases hrun : luRun A.rows A.rows 0 (luInit A) with
      | ok s => rw [hrun] at h; exact Except.noConfusion h
      | error e =>
        rw [hrun] at h
        injection h with he
        subst he
        obtain ⟨j, t, _, hj2, hrunj, hstepj⟩ :=
          luRun_error A.rows A.rows 0 (luInit A) e hrun
        obtain ⟨hij, hfail⟩ := (luStep_error_iff A.rows j t e).1 hstepj
        subst hij
        refine ⟨hj2, t, ?_, ?_⟩
        · exact hrunj
        · rw [← ratAbs_eq_abs]
          exact hfail
    · intro hex
      obtain ⟨hi, s, hpre, hfail⟩ := hex
      unfold decomposeLU
      have happ := luRun_append A.rows i (A.rows - i) 0 (luInit A)
      rw [show i + (A.rows - i) = A.rows from by omega] at happ
      rw [happ, hpre]
      show (luRun A.rows (A.rows - i) (0 + i) s).map _ = _
      rw [Nat.zero_add,
        show A.rows - i = (A.rows - i - 1) + 1 from by omega,
        luRun_succ, if_pos hi,
        show luStep A.rows i s = Except.error i from
          (luStep_error_iff A.rows i s i).2
            ⟨rfl, by rw [ratAbs_eq_abs]; exact hfail⟩]
      rfl
  refine ⟨hchar, ?_⟩
  have hmap : (decomposeLU matSingular).map (fun r => r.toggleSign)
      = Except.error 1 := by decide
  exact map_eq_error _ _ _ hmap

/-- Witness for C3: the concrete singular input [[1, 2], [0, 0]] fails
with pivot index 1. -/
theorem lu_singular_error_witness :
    decomposeLU matSingular = Except.error 1 :=
  lu_singular_error.2

/-- Claim C1 fails on the code: decomposing the non-singular matrix
[[4, 1, 0], [1, 1, 0], [2, 3, 1]] succeeds, and for its result the
reconstruction L·U (unit lower triangle packed below the diagonal, upper
triangle including the diagonal) differs from P·A at entry (1, 0):
(L·U)(1, 0) = 1 while (P·A)(1, 0) = A(P[1], 0) = 2, an exact discrepancy
of 1.  The cause is that the row swap at elimination step i exchanges
only the columns from i on (LinearSolver.hpp line 61), leaving the
already-stored multiplier columns below i unswapped, contrary to the
function's own PA = LU contract (LinearSolver.hpp line 21). -/
theorem lu_reconstruction_mismatch :
    (decomposeLU matSwapped).map
        (fun r => (luRecon r 3 1 0, matSwapped.entry (r.P 1) 0))
      = Except.ok (1, 2) ∧ (1 : ℚ) ≠ 2 := by
  constructor
  · decide
  · norm_num

end LinearCPP
